import Mathlib

/-! Verification of `src/main.ts` of the slc-event-scraper repository.

The TypeScript source is shallowly embedded below.  Strings are modelled
over their character lists; JavaScript string and regex operations are
modelled on ASCII, which covers every input class the scraper handles.
A JavaScript function that can throw is modelled as returning `Option`
(`none` = an exception escapes); `Option` fields model possibly-`undefined`
object properties. -/

/-- Character class of the separator regex `[,\s]+` used by `parseSingleDate`. -/
def isSepChar (c : Char) : Bool := c = ',' || c.isWhitespace

/-- `date.split(/[,\s]+/).filter(Boolean)`: the maximal runs of
non-separator characters, in order.  `acc` holds the current run, reversed. -/
def tokenizeAux : List Char → List Char → List String
  | [], [] => []
  | [], acc => [String.mk acc.reverse]
  | c :: cs, acc =>
    if isSepChar c then
      if acc = [] then tokenizeAux cs []
      else String.mk acc.reverse :: tokenizeAux cs []
    else tokenizeAux cs (c :: acc)

/-- The token list of `parseSingleDate`: `date.split(/[,\s]+/).filter(Boolean)`. -/
def tokens (s : String) : List String := tokenizeAux s.data []

/-- `String.prototype.trim()` on the character list. -/
def jsTrimL (l : List Char) : List Char :=
  ((l.dropWhile Char.isWhitespace).reverse.dropWhile Char.isWhitespace).reverse

/-- `String.prototype.trim()`. -/
def jsTrim (s : String) : String := String.mk (jsTrimL s.data)

/-- `String.prototype.split("-")` on the character list. -/
def splitDashL : List Char → List (List Char)
  | [] => [[]]
  | c :: cs =>
    if c = '-' then [] :: splitDashL cs
    else
      match splitDashL cs with
      | [] => [[c]]
      | p :: ps => (c :: p) :: ps

/-- `dateString.split("-")`. -/
def splitDash (s : String) : List String := (splitDashL s.data).map String.mk

/-- `String.prototype.toLowerCase()` on one ASCII character. -/
def asciiLower (c : Char) : Char :=
  if 65 ≤ c.toNat ∧ c.toNat ≤ 90 then Char.ofNat (c.toNat + 32) else c

/-- `String.prototype.toUpperCase()` on one ASCII character. -/
def asciiUpper (c : Char) : Char :=
  if 97 ≤ c.toNat ∧ c.toNat ≤ 122 then Char.ofNat (c.toNat - 32) else c

/-- `String.prototype.toLowerCase()` (ASCII). -/
def lowerStr (s : String) : String := String.mk (s.data.map asciiLower)

/-- `String.prototype.toUpperCase()` (ASCII). -/
def upperStr (s : String) : String := String.mk (s.data.map asciiUpper)

/-- `String.prototype.slice(0, 3)`. -/
def take3 (s : String) : String := String.mk (s.data.take 3)

/-- The `months` array of `formatDate`. -/
def monthsList : List String :=
  ["Jan", "Feb", "Mar", "Apr", "May", "Jun", "Jul", "Aug", "Sep", "Oct", "Nov", "Dec"]

/-- The `days` array of `formatDate`. -/
def daysList : List String := ["Sun", "Mon", "Tue", "Wed", "Thu", "Fri", "Sat"]

/-- The regex class `\d`: an ASCII decimal digit. -/
def isDigitChar (c : Char) : Bool := 48 ≤ c.toNat && c.toNat ≤ 57

/-- `s.replace(/\D/g, "")`: keep only the decimal digits. -/
def digitsOnly (s : String) : String := String.mk (s.data.filter isDigitChar)

/-- Decimal value of an all-digits string (the action of `parseInt` on the
digit strings produced by `digitsOnly`). -/
def strToNat (s : String) : Nat := s.data.foldl (fun a c => a * 10 + (c.toNat - 48)) 0

/-- `parseInt` applied to an optional digit string: `parseInt(undefined)` and
`parseInt("")` are `NaN`, modelled as `none`. -/
def parseIntOpt : Option String → Option Nat
  | none => none
  | some s => if s = "" then none else some (strToNat s)

/-- Decimal digits of `n`, most significant first, prepended to `acc`.
The fuel argument only needs to be larger than `n`. -/
def natToStrL : Nat → Nat → List Char → List Char
  | 0, _, acc => acc
  | fuel + 1, n, acc =>
    let c := Char.ofNat (48 + n % 10)
    if n < 10 then c :: acc else natToStrL fuel (n / 10) (c :: acc)

/-- Decimal rendering of a natural number (JavaScript number-to-string for
the nonnegative integers produced here). -/
def natToStr (n : Nat) : String := String.mk (natToStrL (n + 1) n [])

/-- Decimal rendering of an integer. -/
def intToStr (i : Int) : String :=
  if i < 0 then "-" ++ natToStr (-i).toNat else natToStr i.toNat

/-- Gregorian leap-year rule, as used by JavaScript `Date`. -/
def isLeapY (y : Int) : Bool := y % 4 = 0 && (y % 100 ≠ 0 || y % 400 = 0)

/-- Length of the 0-based month `m` of year `y`. -/
def daysInMonth (y : Int) (m : Nat) : Nat :=
  match m with
  | 0 => 31
  | 1 => if isLeapY y then 29 else 28
  | 2 => 31
  | 3 => 30
  | 4 => 31
  | 5 => 30
  | 6 => 31
  | 7 => 31
  | 8 => 30
  | 9 => 31
  | 10 => 30
  | _ => 31

/-- Signed number of days from 1970-01-01 to the civil date given by year
`y`, 0-based month `m` and day-of-month `d` (standard civil-calendar day
arithmetic, which is what JavaScript `Date` implements). -/
def daysFromCivil (y : Int) (m : Nat) (d : Int) : Int :=
  let m1 : Int := (m : Int) + 1
  let y2 := if m1 ≤ 2 then y - 1 else y
  let era := (if 0 ≤ y2 then y2 else y2 - 399) / 400
  let yoe := y2 - era * 400
  let mp := (m1 + 9) % 12
  let doy := (153 * mp + 2) / 5 + d - 1
  let doe := yoe * 365 + yoe / 4 - yoe / 100 + doy
  era * 146097 + doe - 719468

/-- `new Date(y, m, d)` normalization for `d ≥ 1`: roll an overlarge
day-of-month into the following months.  Fuel `≥ d` suffices since each
step removes at least 28 days. -/
def rollForwardAux : Nat → Int → Nat → Nat → Int × Nat × Nat
  | 0, y, m, d => (y, m, d)
  | fuel + 1, y, m, d =>
    if d ≤ daysInMonth y m then (y, m, d)
    else if m = 11 then rollForwardAux fuel (y + 1) 0 (d - 31)
    else rollForwardAux fuel y (m + 1) (d - daysInMonth y m)

/-- `new Date(y, m, d)` normalization for `d ≥ 1`. -/
def rollForward (y : Int) (m : Nat) (d : Nat) : Int × Nat × Nat := rollForwardAux d y m d

/-- `new Date(y, m, d)` date normalization for `d ≥ 0`: day 0 is the last
day of the previous month, larger days roll forward. -/
def jsNormalize (y : Int) (m : Nat) (d : Nat) : Int × Nat × Nat :=
  if d = 0 then
    if m = 0 then (y - 1, 11, 31) else (y, m - 1, daysInMonth y (m - 1))
  else rollForward y m d

/-- The output template of `parseSingleDate` when the constructed `Date` is
invalid: `days[NaN]` is `undefined` and the numeric getters return `NaN`. -/
def invalidRender (mi : Nat) : String :=
  "undefined, " ++ monthsList.getD mi "undefined" ++ " NaN, NaN"

/-- `new Date(parseInt(year), monthIndex, parseInt(day))` followed by the
output template of `parseSingleDate`.  Models the JavaScript two-digit-year
rule (a year argument 0–99 means 1900–1999) and the ±100,000,000-day `Date`
range (outside it the date is invalid).  Note the source renders
`months[monthIndex]`, the pre-normalization month. -/
def renderDate (y0 : Int) (mi : Nat) (d : Nat) : String :=
  let y := if 0 ≤ y0 ∧ y0 ≤ 99 then y0 + 1900 else y0
  let t := daysFromCivil y mi 1 + ((d : Int) - 1)
  if t < -100000000 ∨ 100000000 < t then invalidRender mi
  else
    let n := jsNormalize y mi d
    let w := ((4 + t).emod 7).toNat
    daysList.getD w "undefined" ++ ", " ++ monthsList.getD mi "undefined" ++ " " ++
      natToStr n.2.2 ++ ", " ++ intToStr n.1

/-- `months.findIndex(m => m.toLowerCase() === month.toLowerCase().slice(0, 3))`;
`none` models `-1`. -/
def monthIndexOf (month : String) : Option Nat :=
  monthsList.findIdx? (fun m => lowerStr m == take3 (lowerStr month))

/-- Tail of `parseSingleDate` after the shape dispatch: year defaulting to
the current year `cy`, digit stripping, month resolution, `Date`
construction and formatting.  `date` is the function's (already trimmed)
argument, returned unchanged when the month does not resolve. -/
def finishDate (cy : Nat) (date month : String) (dayTok yearTok : Option String) : String :=
  let year := yearTok.getD (natToStr cy)
  let dayDigits := dayTok.map digitsOnly
  let yearDigits := digitsOnly year
  match monthIndexOf month with
  | none => date
  | some mi =>
    match parseIntOpt (some yearDigits), parseIntOpt dayDigits with
    | some y, some d => renderDate (y : Int) mi d
    | _, _ => invalidRender mi

/-- `parseSingleDate` from `formatDate` in `src/main.ts`.  `none` models a
thrown `TypeError` (accessing `.slice` of `parts[0]` when there are no
tokens, or `.toLowerCase` of an `undefined` month token). -/
def parseSingleDate (cy : Nat) (date : String) : Option String :=
  match tokens date with
  | [] => none
  | p0 :: rest =>
    if daysList.contains p0 then
      match rest with
      | [] => none
      | month :: rest2 => some (finishDate cy date month rest2.head? rest2[1]?)
    else if monthsList.contains (take3 p0) then
      some (finishDate cy date p0 rest.head? rest[1]?)
    else some date

/-- `formatDate` from `src/main.ts`; `cy` is the current calendar year
(`new Date().getFullYear()`), passed explicitly.  `none` models a thrown
exception escaping `formatDate`. -/
def formatDate (cy : Nat) (dateString : String) : Option String :=
  if jsTrim dateString = "" ∨ dateString = "mockValue" then some dateString
  else
    match ((splitDash dateString).map jsTrim).mapM (parseSingleDate cy) with
    | none => none
    | some ps => if ps.length = 2 then some (String.intercalate " - " ps) else ps.head?

/-- Sides whose token list is nonempty and not a lone weekday token; these
are exactly the sides on which `parseSingleDate` does not throw. -/
def sideSafe (side : String) : Bool :=
  match tokens side with
  | [] => false
  | [t] => !(daysList.contains t)
  | _ :: _ :: _ => true

/-- The input shapes `parseSingleDate` reports as unrecognized and returns
unchanged: a first token that is neither a weekday abbreviation nor
month-led (both tests exact-case), or an unresolvable month token after a
weekday token. -/
def dateUnrecognized (s : String) : Bool :=
  match tokens s with
  | [] => false
  | [t] => !(daysList.contains t) && !(monthsList.contains (take3 t))
  | t :: mo :: _ =>
    (!(daysList.contains t) && !(monthsList.contains (take3 t))) ||
    (daysList.contains t && (monthIndexOf mo).isNone)

/-- The weekday (`Date.prototype.getDay`) of the date constructed from year
`y`, 0-based month `mi` and day `d`: 0 is Sunday. -/
def weekdayNum (y : Nat) (mi : Nat) (d : Nat) : Nat :=
  ((4 + (daysFromCivil (y : Int) mi 1 + ((d : Int) - 1))).emod 7).toNat

/-- The canonical output string of `parseSingleDate`:
`"{weekday}, {month} {day}, {year}"`. -/
def canonOut (w mi d y : Nat) : String :=
  daysList.getD w "undefined" ++ ", " ++ monthsList.getD mi "undefined" ++ " " ++
    natToStr d ++ ", " ++ natToStr y

/-- Month, day and year tokens that resolve to a calendar-valid date with a
4-digit year: the month token resolves to index `mi`, the day token's digits
give a day within month `mi` of the year, and the year token's digits give a
year in 100–9999. -/
def ValidCore (mo dTok yTok : String) : Prop :=
  ∃ mi, monthIndexOf mo = some mi ∧
    digitsOnly dTok ≠ "" ∧ digitsOnly yTok ≠ "" ∧
    100 ≤ strToNat (digitsOnly yTok) ∧ strToNat (digitsOnly yTok) ≤ 9999 ∧
    1 ≤ strToNat (digitsOnly dTok) ∧
    strToNat (digitsOnly dTok) ≤ daysInMonth ((strToNat (digitsOnly yTok) : Int)) mi

/-- A valid single date input: dash-free, and tokenizing either to
`[weekday, month, day, year]` with an exact weekday abbreviation, or to
`[month, day, year]` with an exact-case month-led first token, with
calendar-valid month/day/year tokens. -/
def ValidSingleDate (s : String) : Prop :=
  '-' ∉ s.data ∧
  ((∃ wd mo dTok yTok, tokens s = [wd, mo, dTok, yTok] ∧ wd ∈ daysList ∧
      ValidCore mo dTok yTok) ∨
   (∃ mo dTok yTok, tokens s = [mo, dTok, yTok] ∧ take3 mo ∈ monthsList ∧
      ValidCore mo dTok yTok))

/-- A resolved selector set (`WebsiteConfig["defaultSelectors"]` and the
LLM schema's `selectors` object): `subtitle` and `pretitle` are optional. -/
structure Selectors where
  venue : String
  price : String
  event : String
  date : String
  ticketLink : String
  subtitle : Option String
  pretitle : Option String
deriving DecidableEq

/-- The structured-completion response of `getSelectorsFromLLM`: the schema
is an object with a `selectors` field. -/
structure LLMResponse where
  selectors : Selectors
deriving DecidableEq

/-- `getSelectorsFromLLM` from `src/main.ts`.  The `generateObject` call is
abstracted by its outcome; `Except.error` is any rejection caught by the
`try`/`catch` (network error, schema failure, timeout). -/
def getSelectorsFromLLM (result : Except Unit LLMResponse)
    (defaultSelectors : Selectors) : Selectors :=
  match result with
  | Except.ok r => r.selectors
  | Except.error _ => defaultSelectors

/-- One DOM element handle of `scrapeEvents`: `textOf sel` models
`element.$eval(sel, el => el.textContent?.trim() || "")` and `hrefOf sel`
models `element.$eval(sel, el => el.href)`; `none` means the promise
rejected (selector matched nothing). -/
structure PageElement where
  textOf : String → Option String
  hrefOf : String → Option String

/-- An event record as assembled by `scrapeEvents` (`Partial<Event>` cast
to `Event`): a field is `none` when its key was never written
(`undefined`). -/
structure EventRecord where
  website : Option String
  venue : Option String
  price : Option String
  event : Option String
  date : Option String
  ticketLink : Option String
deriving DecidableEq

/-- `element.$eval(sel, el => el.textContent?.trim() || "").catch(() => "")`:
extraction failure yields the empty string. -/
def getText (el : PageElement) (sel : String) : String := (el.textOf sel).getD ""

/-- `element.$eval(sel, el => el.href).catch(() => "")`. -/
def getHref (el : PageElement) (sel : String) : String := (el.hrefOf sel).getD ""

/-- Does `needle` occur as a prefix of the second list? -/
def startsWithL : List Char → List Char → Bool
  | [], _ => true
  | _ :: _, [] => false
  | a :: as, b :: bs => a = b && startsWithL as bs

/-- Does `needle` occur anywhere in the list? -/
def containsSubL (needle : List Char) : List Char → Bool
  | [] => startsWithL needle []
  | c :: cs => startsWithL needle (c :: cs) || containsSubL needle cs

/-- `hay.includes(needle)`. -/
def containsSub (hay needle : String) : Bool := containsSubL needle.data hay.data

/-- The regex `\$\d+(\.\d{2})?` anchored at the current position: `$`, a
maximal digit run, then optionally `.` followed by exactly two digits. -/
def priceMatchAt : List Char → Option (List Char)
  | '$' :: rest =>
    let ds := rest.takeWhile isDigitChar
    if ds = [] then none
    else
      some ('$' :: ds ++
        (match rest.drop ds.length with
         | '.' :: a :: b :: _ =>
           if isDigitChar a && isDigitChar b then ['.', a, b] else []
         | _ => []))
  | _ => none

/-- Leftmost-match search for the price regex. -/
def priceScan : List Char → Option (List Char)
  | [] => none
  | c :: cs =>
    match priceMatchAt (c :: cs) with
    | some m => some m
    | none => priceScan cs

/-- `text.match(/\$\d+(\.\d{2})?/)?.[0]`. -/
def priceMatch (s : String) : Option String := (priceScan s.data).map String.mk

/-- The `price` branch of the extraction loop in `scrapeEvents`. -/
def priceRule (text : String) : String :=
  if containsSub (lowerStr text) "sold out" then "SOLD OUT"
  else
    match priceMatch text with
    | some m => m
    | none => jsTrim text

/-- An ASCII letter. -/
def isAlphaChar (c : Char) : Bool :=
  (65 ≤ c.toNat && c.toNat ≤ 90) || (97 ≤ c.toNat && c.toNat ≤ 122)

/-- A character allowed in a URL scheme after the first. -/
def isSchemeChar (c : Char) : Bool :=
  isAlphaChar c || isDigitChar c || c = '+' || c = '-' || c = '.'

/-- A valid URL scheme: a letter followed by scheme characters. -/
def validScheme : List Char → Bool
  | [] => false
  | c :: cs => isAlphaChar c && cs.all isSchemeChar

/-- The WHATWG special schemes (authority-based serialization). -/
def specialSchemes : List String := ["http", "https", "ws", "wss", "ftp", "file"]

/-- Split at the first occurrence of `c`: the parts before and after it. -/
def splitFirst (c : Char) : List Char → Option (List Char × List Char)
  | [] => none
  | x :: xs =>
    if x = c then some ([], xs)
    else
      match splitFirst c xs with
      | none => none
      | some (a, b) => some (x :: a, b)

/-- Split the tail of a URL (starting at the first `'?'` or `'#'`, or
empty) into its query and fragment components. -/
def queryFrag : List Char → Option String × Option String
  | '?' :: rest =>
    (match splitFirst '#' rest with
     | none => (some (String.mk rest), none)
     | some (q, f) => (some (String.mk q), some (String.mk f)))
  | '#' :: rest => (none, some (String.mk rest))
  | _ => (none, none)

/-- A parsed URL (the host's `URL` class, modelled on the fragment of the
WHATWG grammar this program exercises: absolute special-scheme URLs with a
non-empty host, and opaque-path URLs for other schemes). -/
structure JsURL where
  scheme : String
  special : Bool
  host : String
  path : String
  query : Option String
  frag : Option String
deriving DecidableEq

/-- `new URL(url)` for the model above; `none` models the constructor
throwing `TypeError` on unparsable input. -/
def parseURL (s : String) : Option JsURL :=
  match splitFirst ':' (jsTrim s).data with
  | none => none
  | some (sch, rest) =>
    if validScheme sch then
      let scheme := String.mk (sch.map asciiLower)
      if specialSchemes.contains scheme then
        match rest with
        | '/' :: '/' :: rest2 =>
          let auth := rest2.takeWhile (fun c => !(c = '/' || c = '?' || c = '#'))
          let rest3 := rest2.dropWhile (fun c => !(c = '/' || c = '?' || c = '#'))
          if auth = [] then none
          else
            let path := rest3.takeWhile (fun c => !(c = '?' || c = '#'))
            let qf := queryFrag (rest3.dropWhile (fun c => !(c = '?' || c = '#')))
            some ⟨scheme, true, String.mk (auth.map asciiLower), String.mk path, qf.1, qf.2⟩
        | _ => none
      else
        let path := rest.takeWhile (fun c => !(c = '?' || c = '#'))
        let qf := queryFrag (rest.dropWhile (fun c => !(c = '?' || c = '#')))
        some ⟨scheme, false, "", String.mk path, qf.1, qf.2⟩
    else none

/-- `URL.prototype.toString()` for the model above: an empty path of a
special-scheme URL serializes as `/`; a cleared (absent) query serializes
without `?`. -/
def serializeURL (u : JsURL) : String :=
  (if u.special then
    u.scheme ++ "://" ++ u.host ++ (if u.path = "" then "/" else u.path)
  else u.scheme ++ ":" ++ u.path) ++
  (match u.query with | none => "" | some q => "?" ++ q) ++
  (match u.frag with | none => "" | some f => "#" ++ f)

/-- `removeSearchParams` from `src/main.ts`: parse the URL, clear its
`search`, serialize; on parse failure return the input unchanged. -/
def removeSearchParams (url : String) : String :=
  match parseURL url with
  | some u => serializeURL { u with query := none }
  | none => url

/-- The `presenter` variable of a `scrapeEvents` block after the field
loop (written only by the `pretitle` key). -/
def presenterOf (el : PageElement) (sel : Selectors) : String :=
  match sel.pretitle with
  | none => ""
  | some ps => if ps = "" then "" else getText el ps

/-- The `mainArtist` variable of a `scrapeEvents` block after the field
loop (written only by the `event` key). -/
def mainArtistOf (el : PageElement) (sel : Selectors) : String :=
  if sel.event = "" then "" else getText el sel.event

/-- The `supportingActs` variable of a `scrapeEvents` block after the
field loop (written only by the `subtitle` key). -/
def supportingActsOf (el : PageElement) (sel : Selectors) : String :=
  match sel.subtitle with
  | none => ""
  | some ss => if ss = "" then "" else getText el ss

/-- The title-assembly rule as the spec states it (§4.4): presenter
uppercased, then main artist, then supporting acts, empty segments omitted
entirely, single-space separators. -/
def specTitle (presenter mainArtist supportingActs : String) : String :=
  String.intercalate " "
    (List.filter (fun t => t ≠ "") [upperStr presenter, mainArtist, supportingActs])

/-- One block of `scrapeEvents`: the per-field loop over
`Object.entries(selectors)` (insertion order: venue, price, event, date,
ticketLink, subtitle, pretitle; empty selectors skipped by
`if (!selector) continue`), followed by title assembly.  `none` models the
block's promise rejecting, which only `formatDate` can cause. -/
def processBlock (cy : Nat) (el : PageElement) (sel : Selectors)
    (websiteKey venue : String) : Option EventRecord :=
  let venueField : Option String :=
    if sel.venue = "" then none
    else if getText el sel.venue = "" then some venue
    else some (getText el sel.venue)
  let priceField : Option String :=
    if sel.price = "" then none else some (priceRule (getText el sel.price))
  let ticketField : Option String :=
    if sel.ticketLink = "" then none
    else some (removeSearchParams (getHref el sel.ticketLink))
  let dateResult : Option (Option String) :=
    if sel.date = "" then some none
    else (formatDate cy (getText el sel.date)).map some
  match dateResult with
  | none => none
  | some dateField =>
    let title :=
      (if presenterOf el sel ≠ "" then [upperStr (presenterOf el sel)] else []) ++
      (if mainArtistOf el sel ≠ "" then [mainArtistOf el sel] else []) ++
      (if supportingActsOf el sel ≠ "" then [supportingActsOf el sel] else [])
    some {
      website := some websiteKey
      venue := venueField
      price := priceField
      event := some (String.intercalate " " title)
      date := dateField
      ticketLink := ticketField }

/-- `scrapeEvents` from `src/main.ts`, given the list of elements matched
by the container selector: one record per block, in block order;
`Promise.all` rejects when any block rejects. -/
def scrapeEvents (cy : Nat) (els : List PageElement) (sel : Selectors)
    (websiteKey venue : String) : Option (List EventRecord) :=
  els.mapM (fun el => processBlock cy el sel websiteKey venue)

/-- JavaScript truthiness of a string-or-`undefined` field. -/
def truthy (o : Option String) : Bool := !(o.getD "" == "")

/-- The cleaning predicate of `saveToJson`: all six required fields
truthy. -/
def requiredTruthy (e : EventRecord) : Bool :=
  truthy e.website && truthy e.venue && truthy e.price &&
  truthy e.event && truthy e.date && truthy e.ticketLink

/-- The array `saveToJson` writes: `data.filter(...)`. -/
def cleanEvents (data : List EventRecord) : List EventRecord :=
  data.filter requiredTruthy

/-- Helper for reading off the shape tests of `parseSingleDate`. -/
theorem contains_eq_false_iff (l : List String) (a : String) :
    l.contains a = false ↔ a ∉ l := by
  simp

theorem splitDashL_ne_nil (l : List Char) : splitDashL l ≠ [] := by
  induction l with
  | nil => simp [splitDashL]
  | cons c cs ih =>
    unfold splitDashL
    by_cases hc : c = '-'
    · simp [hc]
    · simp only [if_neg hc]
      cases hcs : splitDashL cs with
      | nil => simp
      | cons p ps => simp

theorem splitDashL_no_dash (l : List Char) (h : '-' ∉ l) : splitDashL l = [l] := by
  induction l with
  | nil => rfl
  | cons c cs ih =>
    have hc : ¬(c = '-') := fun e => h (e ▸ List.mem_cons_self c cs)
    have hcs : '-' ∉ cs := fun m => h (List.mem_cons_of_mem c m)
    unfold splitDashL
    rw [if_neg hc, ih hcs]

theorem splitDash_no_dash (s : String) (h : '-' ∉ s.data) : splitDash s = [s] := by
  unfold splitDash
  rw [splitDashL_no_dash s.data h]
  rfl

theorem splitDashL_length (l : List Char) : (splitDashL l).length = l.count '-' + 1 := by
  induction l with
  | nil => simp [splitDashL]
  | cons c cs ih =>
    by_cases hc : c = '-'
    · subst hc
      simp [splitDashL, ih, List.count_cons]
    · simp only [splitDashL, if_neg hc]
      cases hcs : splitDashL cs with
      | nil => exact absurd hcs (splitDashL_ne_nil cs)
      | cons p ps =>
        rw [hcs] at ih
        simp only [List.length_cons] at ih ⊢
        rw [List.count_cons]
        simp [hc]
        omega

theorem tokenizeAux_all_sep (l : List Char) (h : ∀ c ∈ l, isSepChar c = true) :
    tokenizeAux l [] = [] := by
  induction l with
  | nil => rfl
  | cons c cs ih =>
    have hc := h c (List.mem_cons_self c cs)
    simp only [tokenizeAux, hc]
    simpa using ih (fun x hx => h x (List.mem_cons_of_mem c hx))

theorem tokenizeAux_dropWhile_ws (l : List Char) :
    tokenizeAux (l.dropWhile Char.isWhitespace) [] = tokenizeAux l [] := by
  induction l with
  | nil => rfl
  | cons c cs ih =>
    by_cases hc : c.isWhitespace
    · have hsep : isSepChar c = true := by simp [isSepChar, hc]
      rw [List.dropWhile_cons, if_pos hc, ih]
      simp [tokenizeAux, hsep]
    · rw [List.dropWhile_cons, if_neg hc]

theorem tokenizeAux_append_ws (l₂ : List Char) (h : ∀ c ∈ l₂, Char.isWhitespace c) :
    ∀ (l₁ : List Char) (acc : List Char), tokenizeAux (l₁ ++ l₂) acc = tokenizeAux l₁ acc := by
  intro l₁
  induction l₁ with
  | nil =>
    intro acc
    rw [List.nil_append]
    cases l₂ with
    | nil => rfl
    | cons c cs =>
      have hc : isSepChar c = true := by simp [isSepChar, h c (List.mem_cons_self c cs)]
      have hcs : tokenizeAux cs [] = [] :=
        tokenizeAux_all_sep cs (fun x hx => by
          simp [isSepChar, h x (List.mem_cons_of_mem c hx)])
      cases acc with
      | nil => simp [tokenizeAux, hc, hcs]
      | cons a as => simp [tokenizeAux, hc, hcs]
  | cons c cs ih =>
    intro acc
    rw [List.cons_append]
    by_cases hc : isSepChar c
    · simp only [tokenizeAux, hc]
      by_cases ha : acc = [] <;> simp [ha, ih]
    · simp only [tokenizeAux, hc]
      simp [ih]

theorem tokens_jsTrim (s : String) : tokens (jsTrim s) = tokens s := by
  show tokenizeAux (jsTrimL s.data) [] = tokenizeAux s.data []
  unfold jsTrimL
  have hdecomp : s.data.dropWhile Char.isWhitespace =
      ((s.data.dropWhile Char.isWhitespace).reverse.dropWhile Char.isWhitespace).reverse ++
      ((s.data.dropWhile Char.isWhitespace).reverse.takeWhile Char.isWhitespace).reverse := by
    conv_lhs => rw [← List.reverse_reverse (s.data.dropWhile Char.isWhitespace)]
    conv_lhs =>
      rw [← List.takeWhile_append_dropWhile Char.isWhitespace
        (s.data.dropWhile Char.isWhitespace).reverse]
    rw [List.reverse_append]
  have hmain : tokenizeAux
      (((s.data.dropWhile Char.isWhitespace).reverse.dropWhile Char.isWhitespace).reverse) [] =
      tokenizeAux (s.data.dropWhile Char.isWhitespace) [] := by
    conv_rhs => rw [hdecomp]
    rw [tokenizeAux_append_ws _
      (fun c hc => List.mem_takeWhile_imp (List.mem_reverse.mp hc)) _ []]
  rw [hmain, tokenizeAux_dropWhile_ws]

theorem jsTrim_eq_empty (s : String) (h : jsTrim s = "") :
    ∀ c ∈ s.data, Char.isWhitespace c := by
  intro c hc
  have hl : jsTrimL s.data = [] := by
    have := congrArg String.data h
    simpa [jsTrim] using this
  unfold jsTrimL at hl
  rw [List.reverse_eq_nil_iff] at hl
  have hall : ∀ x ∈ s.data.dropWhile Char.isWhitespace, Char.isWhitespace x := by
    intro x hx
    have : x ∈ (s.data.dropWhile Char.isWhitespace).reverse := List.mem_reverse.mpr hx
    exact List.dropWhile_eq_nil_iff.mp hl x this
  have hsplit := List.takeWhile_append_dropWhile Char.isWhitespace s.data
  rw [← hsplit] at hc
  rcases List.mem_append.mp hc with h1 | h2
  · exact List.mem_takeWhile_imp h1
  · exact hall c h2

theorem jsTrim_ne_empty_of_tokens (s : String) (h : tokens s ≠ []) : jsTrim s ≠ "" := by
  intro he
  apply h
  rw [← tokens_jsTrim, he]
  rfl

theorem mapM_option_all_some {α β : Type} (f : α → Option β) :
    ∀ l : List α, (∀ x ∈ l, (f x).isSome) →
      ∃ ps, l.mapM f = some ps ∧ ps.length = l.length := by
  intro l
  induction l with
  | nil => exact fun _ => ⟨[], rfl, rfl⟩
  | cons a l ih =>
    intro h
    obtain ⟨b, hb⟩ := Option.isSome_iff_exists.mp (h a (List.mem_cons_self a l))
    obtain ⟨ps, hps, hlen⟩ := ih (fun x hx => h x (List.mem_cons_of_mem a hx))
    refine ⟨b :: ps, ?_, by simp [hlen]⟩
    rw [List.mapM_cons, hb, hps]
    rfl

theorem parseSingleDate_isSome_of_safe (cy : Nat) (x : String) (h : sideSafe x = true) :
    (parseSingleDate cy x).isSome := by
  unfold sideSafe at h
  unfold parseSingleDate
  cases htk : tokens x with
  | nil => rw [htk] at h; exact absurd h (by simp)
  | cons t rest =>
    rw [htk] at h
    cases rest with
    | nil =>
      simp at h
      by_cases hm : take3 t ∈ monthsList <;> simp [h, hm]
    | cons mo rest2 =>
      by_cases hd : t ∈ daysList <;> by_cases hm : take3 t ∈ monthsList <;>
        simp [hd, hm]

theorem parseSingleDate_unrecognized (cy : Nat) (s : String)
    (h : dateUnrecognized s = true) : parseSingleDate cy s = some s := by
  unfold dateUnrecognized at h
  unfold parseSingleDate
  cases htk : tokens s with
  | nil => rw [htk] at h; exact absurd h (by simp)
  | cons t rest =>
    rw [htk] at h
    cases rest with
    | nil =>
      simp at h
      simp [h.1, h.2]
    | cons mo rest2 =>
      simp at h
      rcases h with ⟨h1, h2⟩ | ⟨h1, h2⟩
      · simp [h1, h2]
      · simp [finishDate, h1, h2]

theorem tokens_ne_nil_of_unrecognized (s : String) (h : dateUnrecognized s = true) :
    tokens s ≠ [] := by
  intro he
  unfold dateUnrecognized at h
  rw [he] at h
  exact absurd h (by simp)

theorem formatDate_of_parse_self (cy : Nat) (s : String)
    (hd : '-' ∉ s.data) (ht : jsTrim s = s)
    (hp : parseSingleDate cy s = some s) : formatDate cy s = some s := by
  unfold formatDate
  by_cases hg : jsTrim s = "" ∨ s = "mockValue"
  · rw [if_pos hg]
  · rw [if_neg hg, splitDash_no_dash s hd]
    simp only [List.map_cons, List.map_nil, ht]
    rw [List.mapM_cons, hp]
    rfl

/-- C1 counterexample: the claim says `formatDate` returns normally on
every input, but on `","` the token list is empty and the source
dereferences `parts[0].slice(0, 3)` with `parts[0]` being `undefined`,
throwing a `TypeError` (modelled as `none`). -/
theorem c1_counterexample : formatDate 2024 "," = none := rfl

/-- C1 (amended): `formatDate` returns empty or whitespace-only input and
the sentinel `"mockValue"` unchanged; it returns normally whenever every
`'-'`-separated trimmed side has a nonempty token list that is not a lone
weekday token; a dash-free trim-fixed input unrecognized as a date is
returned unchanged; and `formatDate("") = ""` and
`formatDate("Invalid Date") = "Invalid Date"`.  (As stated the claim
fails: inputs such as `","` or a lone weekday token throw, and
unrecognized inputs containing `'-'` are trimmed, split and re-joined
rather than returned verbatim.) -/
theorem c1_amended (cy : Nat) (s : String) :
    (jsTrim s = "" ∨ s = "mockValue" → formatDate cy s = some s) ∧
    ((∀ side ∈ (splitDash s).map jsTrim, sideSafe side = true) →
      (formatDate cy s).isSome) ∧
    ('-' ∉ s.data → jsTrim s = s → dateUnrecognized s = true →
      formatDate cy s = some s) ∧
    formatDate cy "" = some "" ∧ formatDate cy "Invalid Date" = some "Invalid Date" := by
  refine ⟨?_, ?_, ?_, rfl, rfl⟩
  · intro hg
    unfold formatDate
    rw [if_pos hg]
  · intro hall
    unfold formatDate
    by_cases hg : jsTrim s = "" ∨ s = "mockValue"
    · rw [if_pos hg]; rfl
    · rw [if_neg hg]
      obtain ⟨ps, hps, hlen⟩ := mapM_option_all_some (parseSingleDate cy) _
        (fun x hx => parseSingleDate_isSome_of_safe cy x (hall x hx))
      rw [hps]
      by_cases h2 : ps.length = 2
      · simp [h2]
      · have hne : ps ≠ [] := by
          intro he
          subst he
          simp only [List.length_nil, List.length_map] at hlen
          have := splitDashL_ne_nil s.data
          have hl0 : (splitDashL s.data).length ≠ 0 := by
            intro hz
            exact this (List.eq_nil_of_length_eq_zero hz)
          simp [splitDash] at hlen
          exact hl0 (by omega)
        cases ps with
        | nil => exact absurd rfl hne
        | cons p ps' =>
          show (if (p :: ps').length = 2 then some (String.intercalate " - " (p :: ps'))
            else (p :: ps').head?).isSome = true
          rw [if_neg h2]
          rfl
  · intro hdash htrim hunrec
    exact formatDate_of_parse_self cy s hdash htrim
      (parseSingleDate_unrecognized cy s hunrec)

/-- Witness for C1 (amended): concrete instances of each conditional part. -/
theorem c1_amended_witness :
    formatDate 2024 "mockValue" = some "mockValue" ∧
    (formatDate 2024 "Jul 4, 2024").isSome ∧
    formatDate 2024 "not a date" = some "not a date" :=
  ⟨(c1_amended 2024 "mockValue").1 (Or.inr rfl),
   (c1_amended 2024 "Jul 4, 2024").2.1 (by decide),
   (c1_amended 2024 "not a date").2.2.1 (by decide) (by decide) (by decide)⟩

/-- C2: on an input that splits on `'-'` into exactly two sides,
`formatDate` trims each side, normalizes each side independently with
`parseSingleDate` (which defaults an absent year to the current year), and
joins the two results with `" - "`; and the spec's range example holds
with current year 2024. -/
theorem c2_range (cy : Nat) (s a b : String) (h : splitDash s = [a, b]) :
    formatDate cy s =
      (match parseSingleDate cy (jsTrim a), parseSingleDate cy (jsTrim b) with
       | some x, some y => some (x ++ " - " ++ y)
       | _, _ => none) ∧
    formatDate 2024 "Jul 4 - Jul 5, 2024" = some "Thu, Jul 4, 2024 - Fri, Jul 5, 2024" := by
  refine ⟨?_, by decide⟩
  have hlen2 : (splitDashL s.data).length = 2 := by
    have : (splitDash s).length = 2 := by rw [h]; rfl
    simpa [splitDash] using this
  have hdash : '-' ∈ s.data := by
    have hc := splitDashL_length s.data
    rw [hlen2] at hc
    exact List.count_pos_iff.mp (by omega)
  have hne : jsTrim s ≠ "" := by
    intro he
    have hws := jsTrim_eq_empty s he '-' hdash
    exact absurd hws (by decide)
  have hnm : ¬(s = "mockValue") := by
    intro he
    subst he
    rw [show splitDash "mockValue" = ["mockValue"] from rfl] at h
    exact absurd h (by simp)
  unfold formatDate
  rw [if_neg (by tauto), h]
  simp only [List.map_cons, List.map_nil]
  rw [List.mapM_cons, List.mapM_cons, List.mapM_nil]
  cases parseSingleDate cy (jsTrim a) with
  | none => rfl
  | some x =>
    cases parseSingleDate cy (jsTrim b) with
    | none => rfl
    | some y => simp [String.intercalate, String.intercalate.go]

/-- Witness for C2 at the spec's own range example. -/
theorem c2_range_witness :
    formatDate 2024 "Jul 4 - Jul 5, 2024" =
      (match parseSingleDate 2024 (jsTrim "Jul 4 "), parseSingleDate 2024 (jsTrim " Jul 5, 2024") with
       | some x, some y => some (x ++ " - " ++ y)
       | _, _ => none) :=
  (c2_range 2024 "Jul 4 - Jul 5, 2024" "Jul 4 " " Jul 5, 2024" (by decide)).1

/-- C3 counterexample: the first token of `"jul 4, 2024"` matches the
month abbreviation `"Jul"` case-insensitively, yet `formatDate` rejects
the input as unrecognized and returns it unchanged, because the gate
`months.includes(parts[0].slice(0, 3))` is an exact-case test. -/
theorem c3_counterexample :
    formatDate 2024 "jul 4, 2024" = some "jul 4, 2024" ∧
    formatDate 2024 "jul 4, 2024" ≠ some "Thu, Jul 4, 2024" := ⟨by decide, by decide⟩

/-- C3 (amended): the month gate on the first token is case-sensitive — a
single-date input whose first token is not a weekday abbreviation and
whose first three characters are not exactly one of the capitalized month
abbreviations is returned unchanged; case-insensitive month resolution
applies only at the later month-index lookup, e.g. a canonical-case whole
month name normalizes, as does a lowercase month token after a weekday
token. -/
theorem c3_amended (cy : Nat) (s t : String) (rest : List String) :
    (tokens s = t :: rest → daysList.contains t = false →
      monthsList.contains (take3 t) = false → '-' ∉ s.data → jsTrim s = s →
      formatDate cy s = some s) ∧
    formatDate 2024 "July 4, 2024" = some "Thu, Jul 4, 2024" ∧
    formatDate 2024 "Thu, jul 4, 2024" = some "Thu, Jul 4, 2024" := by
  refine ⟨?_, by decide, by decide⟩
  intro htk hd hm hdash htrim
  have hd' : t ∉ daysList := (contains_eq_false_iff _ _).mp hd
  have hm' : take3 t ∉ monthsList := (contains_eq_false_iff _ _).mp hm
  apply formatDate_of_parse_self cy s hdash htrim
  unfold parseSingleDate
  rw [htk]
  cases rest with
  | nil => simp [hd', hm']
  | cons r rs => simp [hd', hm']

/-- Witness for C3 (amended): a month token differing from the exact-case
abbreviation only in casing is rejected unchanged. -/
theorem c3_amended_witness : formatDate 2024 "jUl 4, 2024" = some "jUl 4, 2024" :=
  (c3_amended 2024 "jUl 4, 2024" "jUl" ["4", "2024"]).1 (by decide) (by decide)
    (by decide) (by decide) (by decide)

theorem digitChar_spec (r : Nat) (h : r < 10) :
    (Char.ofNat (48 + r)).toNat = 48 + r ∧ isDigitChar (Char.ofNat (48 + r)) = true := by
  interval_cases r <;> exact ⟨rfl, rfl⟩

theorem isDigitChar_not_sep (c : Char) (h : isDigitChar c = true) :
    isSepChar c = false ∧ c ≠ '-' := by
  refine ⟨?_, ?_⟩
  · have h1 : ¬(c = ',') := by
      intro he; subst he; exact absurd h (by decide)
    have h2 : c.isWhitespace = false := by
      rw [Bool.eq_false_iff]
      intro hw
      have hw' : c = ' ' ∨ c = '\t' ∨ c = '\r' ∨ c = '\n' := by
        simpa [Char.isWhitespace, or_assoc] using hw
      rcases hw' with he | he | he | he <;> (subst he; exact absurd h (by decide))
    simp [isSepChar, h1, h2]
  · intro he; subst he; exact absurd h (by decide)

theorem natToStrL_fuel (n : Nat) : ∀ f₁ f₂ acc, n < f₁ → n < f₂ →
    natToStrL f₁ n acc = natToStrL f₂ n acc := by
  induction n using Nat.strong_induction_on with
  | _ n ih =>
    intro f₁ f₂ acc h₁ h₂
    cases f₁ with
    | zero => omega
    | succ g₁ =>
      cases f₂ with
      | zero => omega
      | succ g₂ =>
        simp only [natToStrL]
        by_cases hn : n < 10
        · simp [hn]
        · simp only [hn, if_false]
          exact ih (n / 10) (by omega) g₁ g₂ _ (by omega) (by omega)

theorem natToStrL_acc (n : Nat) : ∀ f acc, n < f →
    natToStrL f n acc = natToStrL f n [] ++ acc := by
  induction n using Nat.strong_induction_on with
  | _ n ih =>
    intro f acc hf
    cases f with
    | zero => omega
    | succ g =>
      simp only [natToStrL]
      by_cases hn : n < 10
      · simp [hn]
      · simp only [hn, if_false]
        rw [ih (n / 10) (by omega) g _ (by omega),
          ih (n / 10) (by omega) g [Char.ofNat (48 + n % 10)] (by omega)]
        simp

theorem natToStrL_digits (n : Nat) : ∀ f, n < f →
    ∀ c ∈ natToStrL f n [], isDigitChar c = true := by
  induction n using Nat.strong_induction_on with
  | _ n ih =>
    intro f hf c hc
    cases f with
    | zero => omega
    | succ g =>
      simp only [natToStrL] at hc
      by_cases hn : n < 10
      · simp only [hn, if_true] at hc
        rcases List.mem_singleton.mp (by simpa using hc) with he
        subst he
        exact (digitChar_spec (n % 10) (by omega)).2
      · simp only [hn, if_false] at hc
        rw [natToStrL_acc (n / 10) g _ (by omega)] at hc
        rcases List.mem_append.mp hc with h1 | h2
        · exact ih (n / 10) (by omega) g (by omega) c h1
        · rcases List.mem_singleton.mp h2 with he
          subst he
          exact (digitChar_spec (n % 10) (by omega)).2

theorem natToStrL_ne_nil (f n : Nat) (h : n < f) : natToStrL f n [] ≠ [] := by
  cases f with
  | zero => omega
  | succ g =>
    simp only [natToStrL]
    by_cases hn : n < 10
    · simp [hn]
    · simp only [hn, if_false]
      rw [natToStrL_acc (n / 10) g _ (by omega)]
      simp

theorem natToStrL_foldl (n : Nat) : ∀ f a, n < f →
    (natToStrL f n []).foldl (fun a c => a * 10 + (c.toNat - 48)) a =
      a * 10 ^ (natToStrL f n []).length + n := by
  induction n using Nat.strong_induction_on with
  | _ n ih =>
    intro f a hf
    cases f with
    | zero => omega
    | succ g =>
      simp only [natToStrL]
      by_cases hn : n < 10
      · simp only [hn, if_true]
        simp [(digitChar_spec (n % 10) (by omega)).1]
        omega
      · simp only [hn, if_false]
        rw [natToStrL_acc (n / 10) g _ (by omega)]
        rw [List.foldl_append]
        rw [natToStrL_fuel (n / 10) g (g + 1) [] (by omega) (by omega)]
        rw [ih (n / 10) (by omega) (g + 1) a (by omega)]
        simp only [List.foldl_cons, List.foldl_nil, List.length_append,
          List.length_cons, List.length_nil]
        rw [(digitChar_spec (n % 10) (by omega)).1]
        have : a * 10 ^ ((natToStrL (g + 1) (n / 10) []).length + (0 + 1)) =
            a * 10 ^ (natToStrL (g + 1) (n / 10) []).length * 10 := by
          rw [pow_succ]; ring
        rw [this]
        omega

theorem strToNat_natToStr (n : Nat) : strToNat (natToStr n) = n := by
  show (natToStrL (n + 1) n []).foldl (fun a c => a * 10 + (c.toNat - 48)) 0 = n
  rw [natToStrL_foldl n (n + 1) 0 (by omega)]
  simp

theorem natToStr_digits (n : Nat) : ∀ c ∈ (natToStr n).data, isDigitChar c = true :=
  natToStrL_digits n (n + 1) (by omega)

theorem natToStr_ne_empty (n : Nat) : natToStr n ≠ "" := by
  intro h
  have := congrArg String.data h
  simp only [natToStr] at this
  exact natToStrL_ne_nil (n + 1) n (by omega) this

theorem digitsOnly_natToStr (n : Nat) : digitsOnly (natToStr n) = natToStr n := by
  show String.mk ((natToStr n).data.filter isDigitChar) = natToStr n
  rw [List.filter_eq_self.mpr (natToStr_digits n)]

theorem tokenizeAux_word (w : List Char) (rest : List Char)
    (hw : ∀ c ∈ w, isSepChar c = false) :
    ∀ acc, tokenizeAux (w ++ rest) acc = tokenizeAux rest (w.reverse ++ acc) := by
  induction w with
  | nil => intro acc; simp
  | cons c cs ih =>
    intro acc
    have hc : isSepChar c = false := hw c (List.mem_cons_self c cs)
    rw [List.cons_append]
    simp only [tokenizeAux, hc]
    rw [ih (fun x hx => hw x (List.mem_cons_of_mem c hx)) (c :: acc)]
    simp

theorem tokens_sep_skip (c : Char) (rest : List Char) (hc : isSepChar c = true) :
    tokenizeAux (c :: rest) [] = tokenizeAux rest [] := by
  simp [tokenizeAux, hc]

theorem tokens_word_sep (w : List Char) (c : Char) (rest : List Char)
    (hw : ∀ x ∈ w, isSepChar x = false) (hne : w ≠ []) (hc : isSepChar c = true) :
    tokenizeAux (w ++ c :: rest) [] = String.mk w :: tokenizeAux rest [] := by
  rw [tokenizeAux_word w (c :: rest) hw []]
  simp only [List.append_nil, tokenizeAux, hc]
  have hrevne : ¬(w.reverse = []) := by simpa using hne
  rw [if_neg hrevne]
  simp

theorem tokens_word_end (w : List Char)
    (hw : ∀ x ∈ w, isSepChar x = false) (hne : w ≠ []) :
    tokenizeAux w [] = [String.mk w] := by
  have h0 := tokenizeAux_word w [] hw []
  rw [List.append_nil] at h0
  rw [h0]
  cases hrev : w.reverse with
  | nil => exact absurd (by simpa using hrev) hne
  | cons a as =>
    show tokenizeAux [] ((a :: as) ++ []) = [String.mk w]
    rw [List.append_nil]
    show [String.mk (a :: as).reverse] = [String.mk w]
    rw [← hrev, List.reverse_reverse]

theorem daysList_getD_facts (w : Nat) (hw : w < 7) :
    (∀ c ∈ (daysList.getD w "undefined").data, isSepChar c = false ∧ c ≠ '-') ∧
    (daysList.getD w "undefined").data ≠ [] ∧
    daysList.getD w "undefined" ∈ daysList := by
  interval_cases w <;> exact ⟨by decide, by decide, by decide⟩

theorem monthsList_getD_facts (mi : Nat) (hmi : mi < 12) :
    (∀ c ∈ (monthsList.getD mi "undefined").data, isSepChar c = false ∧ c ≠ '-') ∧
    (monthsList.getD mi "undefined").data ≠ [] ∧
    monthIndexOf (monthsList.getD mi "undefined") = some mi := by
  interval_cases mi <;> exact ⟨by decide, by decide, by decide⟩

theorem daysList_take3_not_month : ∀ w ∈ daysList, take3 w ∉ monthsList := by decide

theorem canonOut_data (w mi d y : Nat) :
    (canonOut w mi d y).data =
      (daysList.getD w "undefined").data ++ ',' :: ' ' ::
      ((monthsList.getD mi "undefined").data ++ ' ' ::
      ((natToStr d).data ++ ',' :: ' ' :: (natToStr y).data)) := by
  simp [canonOut, String.data_append]

theorem canonOut_tokens (w mi d y : Nat) (hw : w < 7) (hmi : mi < 12) :
    tokens (canonOut w mi d y) =
      [daysList.getD w "undefined", monthsList.getD mi "undefined",
        natToStr d, natToStr y] := by
  obtain ⟨hdc, hdne, _⟩ := daysList_getD_facts w hw
  obtain ⟨hmc, hmne, _⟩ := monthsList_getD_facts mi hmi
  show tokenizeAux (canonOut w mi d y).data [] = _
  rw [canonOut_data]
  rw [tokens_word_sep _ ',' _ (fun x hx => (hdc x hx).1) hdne (by decide)]
  rw [tokens_sep_skip ' ' _ (by decide)]
  rw [tokens_word_sep _ ' ' _ (fun x hx => (hmc x hx).1) hmne (by decide)]
  rw [tokens_word_sep _ ',' _
    (fun x hx => (isDigitChar_not_sep x (natToStr_digits d x hx)).1)
    (fun he => natToStr_ne_empty d (congrArg String.mk he)) (by decide)]
  rw [tokens_sep_skip ' ' _ (by decide)]
  rw [tokens_word_end _
    (fun x hx => (isDigitChar_not_sep x (natToStr_digits y x hx)).1)
    (fun he => natToStr_ne_empty y (congrArg String.mk he))]

theorem canonOut_no_dash (w mi d y : Nat) (hw : w < 7) (hmi : mi < 12) :
    '-' ∉ (canonOut w mi d y).data := by
  obtain ⟨hdc, _, _⟩ := daysList_getD_facts w hw
  obtain ⟨hmc, _, _⟩ := monthsList_getD_facts mi hmi
  rw [canonOut_data]
  intro hmem
  rcases List.mem_append.mp hmem with h1 | h2
  · exact (hdc '-' h1).2 rfl
  · rcases List.mem_cons.mp h2 with he | h3
    · exact absurd he (by decide)
    · rcases List.mem_cons.mp h3 with he | h4
      · exact absurd he (by decide)
      · rcases List.mem_append.mp h4 with h5 | h6
        · exact (hmc '-' h5).2 rfl
        · rcases List.mem_cons.mp h6 with he | h7
          · exact absurd he (by decide)
          · rcases List.mem_append.mp h7 with h8 | h9
            · exact (isDigitChar_not_sep '-' (natToStr_digits d '-' h8)).2 rfl
            · rcases List.mem_cons.mp h9 with he | h10
              · exact absurd he (by decide)
              · rcases List.mem_cons.mp h10 with he | h11
                · exact absurd he (by decide)
                · exact (isDigitChar_not_sep '-' (natToStr_digits y '-' h11)).2 rfl

theorem daysInMonth_bounds (y : Int) (m : Nat) :
    28 ≤ daysInMonth y m ∧ daysInMonth y m ≤ 31 := by
  rcases m with _ | _ | _ | _ | _ | _ | _ | _ | _ | _ | _ | m
  all_goals simp only [daysInMonth]
  all_goals try exact ⟨by omega, by omega⟩
  split <;> exact ⟨by omega, by omega⟩

theorem rollForward_base (y : Int) (m : Nat) (d : Nat) (h1 : 1 ≤ d)
    (h2 : d ≤ daysInMonth y m) : rollForward y m d = (y, m, d) := by
  unfold rollForward
  cases d with
  | zero => omega
  | succ e =>
    simp only [rollForwardAux]
    rw [if_pos h2]

theorem weekdayNum_lt (y mi d : Nat) : weekdayNum y mi d < 7 := by
  unfold weekdayNum
  have h1 : 0 ≤ (4 + (daysFromCivil (y : Int) mi 1 + ((d : Int) - 1))).emod 7 :=
    Int.emod_nonneg _ (by norm_num)
  have h2 : (4 + (daysFromCivil (y : Int) mi 1 + ((d : Int) - 1))).emod 7 < 7 :=
    Int.emod_lt_of_pos _ (by norm_num)
  omega

theorem daysFromCivil_bound (y : Int) (mi : Nat) (hmi : mi < 12)
    (hy : 99 ≤ y) (hy2 : y ≤ 9999) :
    -1000000 ≤ daysFromCivil y mi 1 ∧ daysFromCivil y mi 1 ≤ 4000000 := by
  interval_cases mi <;>
    (simp only [daysFromCivil]; norm_num; omega)

theorem renderDate_valid (y mi d : Nat) (hmi : mi < 12)
    (hy : 100 ≤ y) (hy2 : y ≤ 9999) (hd1 : 1 ≤ d)
    (hd2 : d ≤ daysInMonth (y : Int) mi) :
    renderDate (y : Int) mi d = canonOut (weekdayNum y mi d) mi d y := by
  have hq : ¬(0 ≤ (y : Int) ∧ (y : Int) ≤ 99) := by
    rintro ⟨_, h99⟩
    omega
  have hd31 : d ≤ 31 := le_trans hd2 (daysInMonth_bounds (y : Int) mi).2
  have hb := daysFromCivil_bound (y : Int) mi hmi (by omega) (by omega)
  simp only [renderDate]
  rw [if_neg hq]
  rw [if_neg (show ¬(daysFromCivil (y : Int) mi 1 + ((d : Int) - 1) < -100000000 ∨
    100000000 < daysFromCivil (y : Int) mi 1 + ((d : Int) - 1)) by omega)]
  simp only [jsNormalize]
  rw [if_neg (show ¬(d = 0) by omega), rollForward_base (y : Int) mi d hd1 hd2]
  simp only [canonOut, weekdayNum, intToStr]
  rw [if_neg (show ¬((y : Int) < 0) by omega)]
  simp

theorem monthIndexOf_lt (mo : String) (mi : Nat) (h : monthIndexOf mo = some mi) :
    mi < 12 := by
  have := (List.findIdx?_eq_some_iff_findIdx_eq.mp h).1
  simpa [monthsList] using this

theorem finishDate_valid (cy : Nat) (date mo dTok yTok : String) (mi : Nat)
    (hmi : monthIndexOf mo = some mi)
    (hdne : digitsOnly dTok ≠ "") (hyne : digitsOnly yTok ≠ "")
    (hy1 : 100 ≤ strToNat (digitsOnly yTok)) (hy2 : strToNat (digitsOnly yTok) ≤ 9999)
    (hd1 : 1 ≤ strToNat (digitsOnly dTok))
    (hd2 : strToNat (digitsOnly dTok) ≤ daysInMonth ((strToNat (digitsOnly yTok) : Int)) mi) :
    finishDate cy date mo (some dTok) (some yTok) =
      canonOut (weekdayNum (strToNat (digitsOnly yTok)) mi (strToNat (digitsOnly dTok)))
        mi (strToNat (digitsOnly dTok)) (strToNat (digitsOnly yTok)) := by
  unfold finishDate
  simp only [Option.getD, Option.map]
  rw [hmi]
  simp only [parseIntOpt]
  rw [if_neg hyne, if_neg hdne]
  exact renderDate_valid _ mi _ (monthIndexOf_lt mo mi hmi) hy1 hy2 hd1 hd2

theorem parseSingleDate_valid (cy : Nat) (x mo dTok yTok : String)
    (hsh : (∃ wd, tokens x = [wd, mo, dTok, yTok] ∧ wd ∈ daysList) ∨
           (tokens x = [mo, dTok, yTok] ∧ take3 mo ∈ monthsList))
    (hcore : ValidCore mo dTok yTok) :
    ∃ mi, monthIndexOf mo = some mi ∧ mi < 12 ∧
      parseSingleDate cy x =
        some (canonOut (weekdayNum (strToNat (digitsOnly yTok)) mi (strToNat (digitsOnly dTok)))
          mi (strToNat (digitsOnly dTok)) (strToNat (digitsOnly yTok))) := by
  obtain ⟨mi, hmi, hdne, hyne, hy1, hy2, hd1, hd2⟩ := hcore
  refine ⟨mi, hmi, monthIndexOf_lt mo mi hmi, ?_⟩
  have hfin := finishDate_valid cy x mo dTok yTok mi hmi hdne hyne hy1 hy2 hd1 hd2
  rcases hsh with ⟨wd, htk, hwd⟩ | ⟨htk, hmo⟩
  · unfold parseSingleDate
    rw [htk]
    simp only [hwd, if_true]
    simp [hwd]
    exact hfin
  · have hnd : mo ∉ daysList := by
      intro hmem
      exact daysList_take3_not_month mo hmem hmo
    unfold parseSingleDate
    rw [htk]
    simp [hnd, hmo]
    exact hfin

theorem formatDate_single (cy : Nat) (s r : String) (hd : '-' ∉ s.data)
    (hg1 : jsTrim s ≠ "") (hg2 : s ≠ "mockValue")
    (hp : parseSingleDate cy (jsTrim s) = some r) :
    formatDate cy s = some r := by
  unfold formatDate
  rw [if_neg (by tauto), splitDash_no_dash s hd]
  simp only [List.map_cons, List.map_nil]
  rw [List.mapM_cons, hp]
  rfl

/-- C4: on every valid single-date input, `formatDate` succeeds, its output
begins with one of the seven canonical weekday abbreviations, and it is
idempotent: running the output through `formatDate` again returns it
unchanged. -/
theorem c4_weekday_idempotent (cy : Nat) (s : String) (h : ValidSingleDate s) :
    ∃ out, formatDate cy s = some out ∧
      (∃ wd ∈ daysList, ∃ rest, out = wd ++ rest) ∧
      formatDate cy out = some out := by
  obtain ⟨hdash, hsh⟩ := h
  have hsh' : ∃ mo dTok yTok, ValidCore mo dTok yTok ∧
      ((∃ wd, tokens s = [wd, mo, dTok, yTok] ∧ wd ∈ daysList) ∨
       (tokens s = [mo, dTok, yTok] ∧ take3 mo ∈ monthsList)) := by
    rcases hsh with ⟨wd, mo, dT, yT, htk, hwd, hc⟩ | ⟨mo, dT, yT, htk, hmo, hc⟩
    · exact ⟨mo, dT, yT, hc, Or.inl ⟨wd, htk, hwd⟩⟩
    · exact ⟨mo, dT, yT, hc, Or.inr ⟨htk, hmo⟩⟩
  obtain ⟨mo, dT, yT, hcore, hshape⟩ := hsh'
  have htkne : tokens s ≠ [] := by
    rcases hshape with ⟨wd, htk, _⟩ | ⟨htk, _⟩ <;> simp [htk]
  have hshapeT : (∃ wd, tokens (jsTrim s) = [wd, mo, dT, yT] ∧ wd ∈ daysList) ∨
      (tokens (jsTrim s) = [mo, dT, yT] ∧ take3 mo ∈ monthsList) := by
    rw [tokens_jsTrim]
    exact hshape
  obtain ⟨mi, hmi, hmilt, hparse⟩ := parseSingleDate_valid cy (jsTrim s) mo dT yT hshapeT hcore
  obtain ⟨mi', hmi', hdne, hyne, hy1, hy2, hd1, hd2⟩ := hcore
  have hmieq : mi' = mi := by
    rw [hmi] at hmi'
    exact (Option.some.inj hmi').symm
  rw [hmieq] at hd2
  set d := strToNat (digitsOnly dT) with hdDef
  set y := strToNat (digitsOnly yT) with hyDef
  set w := weekdayNum y mi d with hwDef
  have hwlt : w < 7 := weekdayNum_lt y mi d
  have hg2 : s ≠ "mockValue" := by
    intro he
    rcases hshape with ⟨wd, htk, _⟩ | ⟨htk, _⟩ <;>
      · rw [he, show tokens "mockValue" = ["mockValue"] from rfl] at htk
        simp at htk
  have hfirst : formatDate cy s = some (canonOut w mi d y) :=
    formatDate_single cy s _ hdash (jsTrim_ne_empty_of_tokens s htkne) hg2 hparse
  have houttk : tokens (canonOut w mi d y) =
      [daysList.getD w "undefined", monthsList.getD mi "undefined",
        natToStr d, natToStr y] := canonOut_tokens w mi d y hwlt hmilt
  refine ⟨canonOut w mi d y, hfirst, ?_, ?_⟩
  · refine ⟨daysList.getD w "undefined", (daysList_getD_facts w hwlt).2.2,
      ", " ++ monthsList.getD mi "undefined" ++ " " ++ natToStr d ++ ", " ++ natToStr y, ?_⟩
    simp [canonOut, String.append_assoc]
  · have hshape₂ : (∃ wd, tokens (jsTrim (canonOut w mi d y)) =
        [wd, monthsList.getD mi "undefined", natToStr d, natToStr y] ∧ wd ∈ daysList) ∨
        (tokens (jsTrim (canonOut w mi d y)) =
          [monthsList.getD mi "undefined", natToStr d, natToStr y] ∧
          take3 (monthsList.getD mi "undefined") ∈ monthsList) := by
      rw [tokens_jsTrim]
      exact Or.inl ⟨daysList.getD w "undefined", houttk, (daysList_getD_facts w hwlt).2.2⟩
    have hcore₂ : ValidCore (monthsList.getD mi "undefined") (natToStr d) (natToStr y) := by
      refine ⟨mi, (monthsList_getD_facts mi hmilt).2.2, ?_, ?_, ?_, ?_, ?_, ?_⟩
      · rw [digitsOnly_natToStr]
        exact natToStr_ne_empty d
      · rw [digitsOnly_natToStr]
        exact natToStr_ne_empty y
      · rw [digitsOnly_natToStr, strToNat_natToStr]
        exact hy1
      · rw [digitsOnly_natToStr, strToNat_natToStr]
        exact hy2
      · rw [digitsOnly_natToStr, strToNat_natToStr]
        exact hd1
      · rw [digitsOnly_natToStr, digitsOnly_natToStr, strToNat_natToStr, strToNat_natToStr]
        exact hd2
    obtain ⟨mi₂, hmi₂, hmilt₂, hparse₂⟩ := parseSingleDate_valid cy (jsTrim (canonOut w mi d y))
      (monthsList.getD mi "undefined") (natToStr d) (natToStr y) hshape₂ hcore₂
    have hmieq₂ : mi₂ = mi := by
      rw [(monthsList_getD_facts mi hmilt).2.2] at hmi₂
      exact (Option.some.inj hmi₂).symm
    rw [hmieq₂] at hparse₂
    rw [digitsOnly_natToStr, digitsOnly_natToStr, strToNat_natToStr, strToNat_natToStr]
      at hparse₂
    have hg2out : canonOut w mi d y ≠ "mockValue" := by
      intro he
      rw [he, show tokens "mockValue" = ["mockValue"] from rfl] at houttk
      simp at houttk
    have htkneout : tokens (canonOut w mi d y) ≠ [] := by
      rw [houttk]
      simp
    exact formatDate_single cy (canonOut w mi d y) _ (canonOut_no_dash w mi d y hwlt hmilt)
      (jsTrim_ne_empty_of_tokens _ htkneout) hg2out hparse₂

/-- Witness for C4 at the spec's example date `"Jul 4, 2024"`. -/
theorem c4_weekday_idempotent_witness :
    ∃ out, formatDate 2024 "Jul 4, 2024" = some out ∧
      (∃ wd ∈ daysList, ∃ rest, out = wd ++ rest) ∧
      formatDate 2024 out = some out :=
  c4_weekday_idempotent 2024 "Jul 4, 2024"
    ⟨by decide, Or.inr ⟨"Jul", "4", "2024", by decide, by decide,
      ⟨6, by decide, by decide, by decide, by decide, by decide, by decide, by decide⟩⟩⟩

theorem processBlock_fields (cy : Nat) (el : PageElement) (sel : Selectors)
    (wk fb : String) (r : EventRecord)
    (h : processBlock cy el sel wk fb = some r) :
    r.website = some wk ∧
    r.venue = (if sel.venue = "" then none
      else if getText el sel.venue = "" then some fb
      else some (getText el sel.venue)) ∧
    r.price = (if sel.price = "" then none
      else some (priceRule (getText el sel.price))) ∧
    r.event = some (String.intercalate " "
      ((if presenterOf el sel ≠ "" then [upperStr (presenterOf el sel)] else []) ++
       (if mainArtistOf el sel ≠ "" then [mainArtistOf el sel] else []) ++
       (if supportingActsOf el sel ≠ "" then [supportingActsOf el sel] else []))) ∧
    r.ticketLink = (if sel.ticketLink = "" then none
      else some (removeSearchParams (getHref el sel.ticketLink))) ∧
    (sel.date = "" → r.date = none) ∧
    (sel.date ≠ "" → ∃ v, formatDate cy (getText el sel.date) = some v ∧ r.date = some v) := by
  unfold processBlock at h
  by_cases hds : sel.date = ""
  · rw [if_pos hds] at h
    simp only [] at h
    rcases Option.some.inj h with he
    subst he
    refine ⟨rfl, rfl, rfl, rfl, rfl, fun _ => rfl, fun hne => absurd hds hne⟩
  · rw [if_neg hds] at h
    cases hfd : formatDate cy (getText el sel.date) with
    | none =>
      rw [hfd] at h
      simp at h
    | some v =>
      rw [hfd] at h
      simp only [Option.map_some] at h
      rcases Option.some.inj h with he
      subst he
      exact ⟨rfl, rfl, rfl, rfl, rfl, fun hd => absurd hd hds, fun _ => ⟨v, rfl, rfl⟩⟩

theorem processBlock_isSome (cy : Nat) (el : PageElement) (sel : Selectors)
    (wk fb : String)
    (hdate : sel.date ≠ "" → (formatDate cy (getText el sel.date)).isSome) :
    ∃ r, processBlock cy el sel wk fb = some r := by
  unfold processBlock
  by_cases hds : sel.date = ""
  · rw [if_pos hds]
    exact ⟨_, rfl⟩
  · rw [if_neg hds]
    obtain ⟨v, hv⟩ := Option.isSome_iff_exists.mp (hdate hds)
    rw [hv]
    exact ⟨_, rfl⟩

theorem upperStr_eq_empty_iff (s : String) : upperStr s = "" ↔ s = "" := by
  constructor
  · intro h
    have hd : (s.data.map asciiUpper) = [] := by
      have := congrArg String.data h
      simpa [upperStr] using this
    have hnil : s.data = [] := List.map_eq_nil_iff.mp hd
    calc s = String.mk s.data := rfl
    _ = String.mk [] := by rw [hnil]
  · intro h
    subst h
    rfl

/-- C5: the selector resolver returns the structured-completion service's
schema-valid selector object as-is on success (full replacement), and on
any failure of the call returns the supplied defaults unchanged, field for
field; being a total function, no exception propagates to the caller. -/
theorem c5_selector_resolution (r : LLMResponse) (e : Unit) (defaults : Selectors) :
    getSelectorsFromLLM (Except.ok r) defaults = r.selectors ∧
    getSelectorsFromLLM (Except.error e) defaults = defaults ∧
    (getSelectorsFromLLM (Except.error e) defaults).venue = defaults.venue ∧
    (getSelectorsFromLLM (Except.error e) defaults).price = defaults.price ∧
    (getSelectorsFromLLM (Except.error e) defaults).event = defaults.event ∧
    (getSelectorsFromLLM (Except.error e) defaults).date = defaults.date ∧
    (getSelectorsFromLLM (Except.error e) defaults).ticketLink = defaults.ticketLink ∧
    (getSelectorsFromLLM (Except.error e) defaults).subtitle = defaults.subtitle ∧
    (getSelectorsFromLLM (Except.error e) defaults).pretitle = defaults.pretitle :=
  ⟨rfl, rfl, rfl, rfl, rfl, rfl, rfl, rfl, rfl⟩

/-- C6: a single field's extraction failure is recovered by substituting
the empty string for the raw value, and the block still produces a record
(given that the date text does not make `formatDate` throw — automatic
when the date field itself is the one that failed); the failure never
propagates as an error.  The record then holds the field's rule applied to
`""`: price `""`, date `""`, ticketLink `""`, and the fallback venue. -/
theorem c6_field_failure (cy : Nat) (el : PageElement) (sel : Selectors) (wk fb : String)
    (hdate : sel.date ≠ "" → (formatDate cy (getText el sel.date)).isSome) :
    ∃ r, processBlock cy el sel wk fb = some r ∧
      (∀ s, el.textOf s = none → getText el s = "") ∧
      (sel.price ≠ "" → el.textOf sel.price = none → r.price = some "") ∧
      (sel.date ≠ "" → el.textOf sel.date = none → r.date = some "") ∧
      (sel.ticketLink ≠ "" → el.hrefOf sel.ticketLink = none → r.ticketLink = some "") ∧
      (sel.venue ≠ "" → el.textOf sel.venue = none → r.venue = some fb) := by
  obtain ⟨r, hr⟩ := processBlock_isSome cy el sel wk fb hdate
  obtain ⟨_, hv, hp, _, ht, _, hdne⟩ := processBlock_fields cy el sel wk fb r hr
  refine ⟨r, hr, fun s hs => by simp [getText, hs], ?_, ?_, ?_, ?_⟩
  · intro hps hnone
    rw [hp, if_neg hps]
    rw [show getText el sel.price = "" from by simp [getText, hnone]]
    rfl
  · intro hds hnone
    obtain ⟨v, hv1, hv2⟩ := hdne hds
    rw [show getText el sel.date = "" from by simp [getText, hnone]] at hv1
    rw [show formatDate cy "" = some "" from rfl] at hv1
    rw [hv2, Option.some.inj hv1]
  · intro hts hnone
    rw [ht, if_neg hts]
    rw [show getHref el sel.ticketLink = "" from by simp [getHref, hnone]]
    rfl
  · intro hvs hnone
    rw [hv, if_neg hvs]
    rw [show getText el sel.venue = "" from by simp [getText, hnone]]
    rfl

/-- Witness for C6: an element on which every extraction fails still
produces a record, with empty or fallback field values. -/
theorem c6_field_failure_witness :
    ∃ r, processBlock 2024 ⟨fun _ => none, fun _ => none⟩
        ⟨".v", ".p", ".e", ".d", ".t", some ".s", some ".pr"⟩ "site" "Venue" = some r ∧
      (∀ s, PageElement.textOf ⟨fun _ => none, fun _ => none⟩ s = none →
        getText ⟨fun _ => none, fun _ => none⟩ s = "") ∧
      ((".p" : String) ≠ "" → PageElement.textOf ⟨fun _ => none, fun _ => none⟩ ".p" = none →
        r.price = some "") ∧
      ((".d" : String) ≠ "" → PageElement.textOf ⟨fun _ => none, fun _ => none⟩ ".d" = none →
        r.date = some "") ∧
      ((".t" : String) ≠ "" → PageElement.hrefOf ⟨fun _ => none, fun _ => none⟩ ".t" = none →
        r.ticketLink = some "") ∧
      ((".v" : String) ≠ "" → PageElement.textOf ⟨fun _ => none, fun _ => none⟩ ".v" = none →
        r.venue = some "Venue") :=
  c6_field_failure 2024 ⟨fun _ => none, fun _ => none⟩
    ⟨".v", ".p", ".e", ".d", ".t", some ".s", some ".pr"⟩ "site" "Venue" (fun _ => by decide)

/-- C7: the emitted record's `event` field equals the spec's title
assembly — presenter uppercased, main artist, supporting acts, joined by
single spaces with empty segments omitted — and the raw `event`,
`pretitle` and `subtitle` extractions reach the record only through this
assembly. -/
theorem c7_title_assembly (cy : Nat) (el : PageElement) (sel : Selectors)
    (wk fb : String) (r : EventRecord)
    (h : processBlock cy el sel wk fb = some r) :
    r.event = some (specTitle (presenterOf el sel) (mainArtistOf el sel)
      (supportingActsOf el sel)) := by
  obtain ⟨_, _, _, he, _, _, _⟩ := processBlock_fields cy el sel wk fb r h
  rw [he]
  unfold specTitle
  have hup := upperStr_eq_empty_iff (presenterOf el sel)
  by_cases h1 : presenterOf el sel = "" <;>
    by_cases h2 : mainArtistOf el sel = "" <;>
      by_cases h3 : supportingActsOf el sel = "" <;>
        simp [List.filter_cons, h1, h2, h3, hup.not, hup,
          show upperStr "" = "" from rfl]

/-- Witness for C7: a block with all three title sources present. -/
theorem c7_title_assembly_witness :
    EventRecord.event ⟨some "site", some "venuewords", some "pricewords",
        some "THE PRESENTER Main Artist supporting acts", some "Thu, Jul 4, 2024", some ""⟩ =
      some (specTitle
        (presenterOf ⟨fun s => some s, fun _ => some ""⟩
          ⟨"venuewords", "pricewords", "Main Artist", "Jul 4, 2024", "tlink",
            some "supporting acts", some "the presenter"⟩)
        (mainArtistOf ⟨fun s => some s, fun _ => some ""⟩
          ⟨"venuewords", "pricewords", "Main Artist", "Jul 4, 2024", "tlink",
            some "supporting acts", some "the presenter"⟩)
        (supportingActsOf ⟨fun s => some s, fun _ => some ""⟩
          ⟨"venuewords", "pricewords", "Main Artist", "Jul 4, 2024", "tlink",
            some "supporting acts", some "the presenter"⟩)) :=
  c7_title_assembly 2024 ⟨fun s => some s, fun _ => some ""⟩
    ⟨"venuewords", "pricewords", "Main Artist", "Jul 4, 2024", "tlink",
      some "supporting acts", some "the presenter"⟩ "site" "V"
    ⟨some "site", some "venuewords", some "pricewords",
      some "THE PRESENTER Main Artist supporting acts", some "Thu, Jul 4, 2024", some ""⟩
    (by decide)

/-- C8: the record's price field follows the three-way rule on the
extracted text: `"SOLD OUT"` on a case-insensitive "sold out" match, else
the first `$`-prefixed numeric substring (optionally with exactly two
decimals), else the trimmed raw text. -/
theorem c8_price_rule (cy : Nat) (el : PageElement) (sel : Selectors)
    (wk fb : String) (r : EventRecord)
    (hsel : sel.price ≠ "") (h : processBlock cy el sel wk fb = some r) :
    r.price = some (
      if containsSub (lowerStr (getText el sel.price)) "sold out" then "SOLD OUT"
      else
        match priceMatch (getText el sel.price) with
        | some m => m
        | none => jsTrim (getText el sel.price)) := by
  obtain ⟨_, _, hp, _, _, _, _⟩ := processBlock_fields cy el sel wk fb r h
  rw [hp, if_neg hsel]
  rfl

/-- Witness for C8: a sold-out block. -/
theorem c8_price_rule_witness :
    EventRecord.price ⟨some "site", some "Sold Out soon", some "SOLD OUT",
        some "Sold Out soon", some "Sold Out soon", some ""⟩ =
      some (
        if containsSub (lowerStr (getText ⟨fun _ => some "Sold Out soon", fun _ => some ""⟩
            ".p")) "sold out" then "SOLD OUT"
        else
          match priceMatch (getText ⟨fun _ => some "Sold Out soon", fun _ => some ""⟩ ".p") with
          | some m => m
          | none => jsTrim (getText ⟨fun _ => some "Sold Out soon", fun _ => some ""⟩ ".p")) :=
  c8_price_rule 2024 ⟨fun _ => some "Sold Out soon", fun _ => some ""⟩
    ⟨".v", ".p", ".e", ".d", ".t", none, none⟩ "site" "V"
    ⟨some "site", some "Sold Out soon", some "SOLD OUT",
      some "Sold Out soon", some "Sold Out soon", some ""⟩
    (by decide) (by decide)

/-- C9: the array written by `saveToJson` is exactly the order-preserving
subsequence of its input whose records have all six required fields
non-empty: any record with an empty or missing required field is dropped,
every fully-populated record passes through unchanged, in position. -/
theorem c9_output_cleaning (l l₁ l₂ : List EventRecord) (ev : EventRecord) :
    cleanEvents (l₁ ++ ev :: l₂) =
      cleanEvents l₁ ++ (if requiredTruthy ev then [ev] else []) ++ cleanEvents l₂ ∧
    (cleanEvents l).Sublist l ∧
    (∀ e ∈ cleanEvents l, requiredTruthy e = true) ∧
    (∀ e ∈ l, requiredTruthy e = true → e ∈ cleanEvents l) := by
  refine ⟨?_, List.filter_sublist l, fun e he => (List.mem_filter.mp he).2,
    fun e he ht => List.mem_filter.mpr ⟨he, ht⟩⟩
  by_cases hev : requiredTruthy ev <;>
    simp [cleanEvents, List.filter_append, List.filter_cons, hev]

/-- C10: on input that parses as an absolute URL, `removeSearchParams`
returns the normalized serialization with the query cleared; on parse
failure it returns the input unchanged, and it never raises; in particular
the spec's two examples hold. -/
theorem c10_strip_query (s : String) (u : JsURL) :
    (parseURL s = some u →
      removeSearchParams s = serializeURL { u with query := none }) ∧
    (parseURL s = none → removeSearchParams s = s) ∧
    removeSearchParams "https://example.com?param=value" = "https://example.com/" ∧
    removeSearchParams "not a url" = "not a url" := by
  refine ⟨?_, ?_, by decide, by decide⟩
  · intro h
    unfold removeSearchParams
    rw [h]
  · intro h
    unfold removeSearchParams
    rw [h]

/-- Witness for C10 at the spec's two examples. -/
theorem c10_strip_query_witness :
    removeSearchParams "https://example.com?param=value" =
      serializeURL { scheme := "https", special := true, host := "example.com",
                     path := "", query := none, frag := none } ∧
    removeSearchParams "not a url" = "not a url" :=
  ⟨(c10_strip_query "https://example.com?param=value"
      ⟨"https", true, "example.com", "", some "param=value", none⟩).1 (by decide),
   (c10_strip_query "not a url" ⟨"x", false, "", "", none, none⟩).2.1 (by decide)⟩
